import Mathlib

/-!
Verification of the frequency-set audio generator (src/app.py).

The Python source is shallowly embedded here:
  - Python floats are idealised as exact rationals (or reals where the
    sine waveform forces irrational values);
  - numpy arrays become Lean lists;
  - Python exceptions become an Except String result (the string records
    the Python exception that the corresponding line raises);
  - Python str values become List Char, with the relevant str methods
    (split, strip, containment) modelled directly on character lists.

Definitions keep the names of the source functions where Lean allows it.
-/

/-- Waveform kinds: the closed enumeration accepted by the generator
(the waveform_options list of the source UI). -/
inductive Waveform where
  | sine
  | lilly
  | square
  | pulse
  | sawtooth
  | reverse_sawtooth
  | triangle
deriving DecidableEq

/-- One parsed segment, mirroring the dict with keys start, end and
duration built by parse_frequency_set.  The Python key end is a Lean
keyword, hence the field names startFreq and endFreq. -/
structure Segment where
  startFreq : ℚ
  endFreq : ℚ
  duration : ℚ
deriving DecidableEq

/-- Per-waveform fraction of the sample rate used by fix_frequency:
the source computes max_freq = sample_rate / 20 for sine and lilly,
/ 8 for triangle, / 4 for pulse, sawtooth and reverse_sawtooth and
/ 2 for square.  The fallback branch of the source is unreachable for
the closed enumeration and has no constructor here. -/
def nyquistFraction : Waveform → ℚ
  | .sine => 1/20
  | .lilly => 1/20
  | .triangle => 1/8
  | .pulse => 1/4
  | .sawtooth => 1/4
  | .reverse_sawtooth => 1/4
  | .square => 1/2

/-- Helper for the termination of the halving loop of fix_frequency. -/
theorem ceil_half_div_lt (maxF freq : ℚ) (hpos : 0 < maxF) (h : maxF < freq) :
    ⌈freq / 2 / maxF⌉₊ < ⌈freq / maxF⌉₊ := by
  have hq : (1 : ℚ) < freq / maxF := (one_lt_div hpos).mpr h
  have h2 : 2 ≤ ⌈freq / maxF⌉₊ := by
    have h1 : (1 : ℕ) < ⌈freq / maxF⌉₊ := Nat.lt_ceil.mpr (by exact_mod_cast hq)
    omega
  have hle : freq / maxF ≤ (⌈freq / maxF⌉₊ : ℚ) := Nat.le_ceil _
  have hco : ((2 : ℚ)) ≤ (⌈freq / maxF⌉₊ : ℚ) := by exact_mod_cast h2
  have hstep : freq / 2 / maxF ≤ (⌈freq / maxF⌉₊ : ℚ) - 1 := by
    have he : freq / 2 / maxF = (freq / maxF) / 2 := by ring
    rw [he]; linarith
  have hfin : ⌈freq / 2 / maxF⌉₊ ≤ ⌈freq / maxF⌉₊ - 1 := by
    apply Nat.ceil_le.mpr
    have hc : ((⌈freq / maxF⌉₊ - 1 : ℕ) : ℚ) = (⌈freq / maxF⌉₊ : ℚ) - 1 := by
      have : (1 : ℕ) ≤ ⌈freq / maxF⌉₊ := by omega
      push_cast [this]; ring
    rw [hc]; exact hstep
  omega

/-- The while loop of fix_frequency: while freq > max_freq, freq /= 2.
The positivity of max_freq is what makes the Python loop terminate, so it
is carried as a hypothesis. -/
def fixLoop (maxF : ℚ) (hpos : 0 < maxF) (freq : ℚ) : ℚ :=
  if h : maxF < freq then fixLoop maxF hpos (freq / 2) else freq
termination_by ⌈freq / maxF⌉₊
decreasing_by exact ceil_half_div_lt maxF freq hpos h

/-- Embedding of fix_frequency (src/app.py lines 24-40): computes the
per-waveform maximum frequency and halves the input until it no longer
exceeds it.  When max_freq is not positive and freq exceeds it the Python
loop never terminates; the claims only concern positive sample rates, for
which the guard below is always taken. -/
def fix_frequency (freq : ℚ) (waveform : Waveform) (sample_rate : ℚ) : ℚ :=
  if h : 0 < sample_rate * nyquistFraction waveform then
    fixLoop (sample_rate * nyquistFraction waveform) h freq
  else freq

/-! ## Segment parsing (parse_frequency_set, src/app.py lines 42-76)

Python str values are modelled as List Char; str.split with a one-char
separator, str.strip and the in operator are modelled below. -/

/-- Model of the Python str.split(sep) method for a one-character
separator: "a,,b" gives three pieces, "" gives one empty piece. -/
def splitOnChar (sep : Char) : List Char → List (List Char)
  | [] => [[]]
  | c :: rest =>
    match splitOnChar sep rest with
    | [] => [[]]
    | g :: gs => if c = sep then [] :: g :: gs else (c :: g) :: gs

/-- Model of the Python str.strip() method with no argument: removes
leading and trailing whitespace. -/
def stripChars (cs : List Char) : List Char :=
  ((cs.dropWhile Char.isWhitespace).reverse.dropWhile Char.isWhitespace).reverse

def digitsVal (cs : List Char) : ℕ :=
  cs.foldl (fun a c => 10 * a + (c.toNat - 48)) 0

def allDigits (cs : List Char) : Bool :=
  cs.all Char.isDigit

/-- Decimal part of parseFloat: an optional integer part, an optional
dot and an optional fractional part, with at least one digit overall. -/
def parseUnsignedDecimal (cs : List Char) : Option ℚ :=
  match splitOnChar '.' cs with
  | [ip] =>
      if !ip.isEmpty && allDigits ip then some ((digitsVal ip : ℚ)) else none
  | [ip, fp] =>
      if (!ip.isEmpty || !fp.isEmpty) && allDigits ip && allDigits fp then
        some ((digitsVal ip : ℚ) + (digitsVal fp : ℚ) / 10 ^ fp.length)
      else none
  | _ => none

/-- Model of the Python builtin float(str) on the decimal-literal subset
the generator meets: surrounding whitespace is stripped, an optional
sign precedes digits with an optional fractional part.  Exponents, inf,
nan and underscore separators are not modelled; no claim concerns them.
Returns none where float raises ValueError. -/
def parseFloat (cs : List Char) : Option ℚ :=
  match stripChars cs with
  | '-' :: rest => (parseUnsignedDecimal rest).map (fun q => -q)
  | '+' :: rest => parseUnsignedDecimal rest
  | other => parseUnsignedDecimal other

/-- The ValueError raised by float() on a malformed literal. -/
def floatError : String := "ValueError: could not convert string to float"

/-- The ValueError raised by tuple unpacking when split returns more
than two pieces. -/
def unpackError : String := "ValueError: too many values to unpack"

/-- Second half of the per-token parse: after the dwell has been split
off, the remaining frequency part is checked for a sweep separator. -/
def parseFreqPart (freq_part : List Char) (dwell : ℚ) : Except String Segment :=
  if freq_part.contains '-' then
    match splitOnChar '-' freq_part with
    | [start_str, end_str] =>
      match parseFloat start_str, parseFloat end_str with
      | some s, some e => Except.ok ⟨s, e, dwell⟩
      | _, _ => Except.error floatError
    | _ => Except.error unpackError
  else
    match parseFloat freq_part with
    | none => Except.error floatError
    | some s => Except.ok ⟨s, s, dwell⟩

/-- Per-token parse of parse_frequency_set: the = delimiter is applied
first (splitting the dwell off and converting it to float), then the
left-hand side is checked for -. -/
def parseToken (part : List Char) (default_dwell : ℚ) : Except String Segment :=
  if part.contains '=' then
    match splitOnChar '=' part with
    | [freq_part, dwell_part] =>
      match parseFloat dwell_part with
      | none => Except.error floatError
      | some dw => parseFreqPart freq_part dw
    | _ => Except.error unpackError
  else parseFreqPart part default_dwell

/-- The loop body of parse_frequency_set over the already stripped
comma-separated tokens: empty tokens are skipped, each other token
contributes exactly one segment or aborts the parse. -/
def parseTokens (default_dwell : ℚ) : List (List Char) → Except String (List Segment)
  | [] => Except.ok []
  | p :: rest =>
    if p.isEmpty then parseTokens default_dwell rest
    else
      match parseToken p default_dwell with
      | Except.error e => Except.error e
      | Except.ok seg =>
        match parseTokens default_dwell rest with
        | Except.error e => Except.error e
        | Except.ok tail => Except.ok (seg :: tail)

/-- Embedding of parse_frequency_set (src/app.py lines 42-76). -/
def parse_frequency_set (freq_str : List Char) (default_dwell : ℚ) :
    Except String (List Segment) :=
  parseTokens default_dwell ((splitOnChar ',' freq_str).map stripChars)

/-- Number of comma-separated tokens of the specification string that
are non-empty after stripping. -/
def nonEmptyTokenCount (freq_str : List Char) : ℕ :=
  (((splitOnChar ',' freq_str).map stripChars).filter (fun t => !t.isEmpty)).length

/-! ## Tone synthesis (generate_tone, src/app.py lines 78-108)

The phase is tracked in cycles (radian phase divided by 2 pi), so that
everything up to the final waveform shaping stays rational.  The scipy
shaping functions take the radian phase; on cycles c their piecewise
definitions depend only on Int.fract c, as written out below. -/

/-- Python int() applied to a real number truncates toward zero. -/
def ratTrunc (q : ℚ) : ℤ :=
  if 0 ≤ q then ⌊q⌋ else ⌈q⌉

/-- The sample count int(duration * sample_rate) of generate_tone. -/
def numSamples (duration sample_rate : ℚ) : ℤ :=
  ratTrunc (duration * sample_rate)

/-- Model of np.linspace(0, d, n, endpoint=False): n evenly spaced
values starting at 0 with step d / n. -/
def linspace (d : ℚ) (n : ℕ) : List ℚ :=
  (List.range n).map (fun i : ℕ => d * (i : ℚ) / (n : ℚ))

/-- The instantaneous phase of generate_tone divided by 2 pi:
start_freq * t + 0.5 * (end_freq - start_freq) * t^2 / duration. -/
def instPhaseCycles (start_freq end_freq duration t : ℚ) : ℚ :=
  start_freq * t + (1/2) * (end_freq - start_freq) * t ^ 2 / duration

/-- Model of scipy.signal.square at radian phase 2 pi c: the value is 1
while the position inside the current cycle is below the duty fraction
and -1 for the rest of the cycle. -/
def squareWave (duty : ℚ) (c : ℚ) : ℚ :=
  if Int.fract c < duty then 1 else -1

/-- Model of scipy.signal.sawtooth at radian phase 2 pi c: a ramp rising
from -1 to 1 over the first width fraction of the cycle and falling back
to -1 over the rest.  width = 1 is the rising sawtooth, width = 0 the
falling one and width = 1/2 the triangle. -/
def sawtoothWave (width : ℚ) (c : ℚ) : ℚ :=
  if Int.fract c < width then 2 * Int.fract c / width - 1
  else 1 - 2 * (Int.fract c - width) / (1 - width)

/-- The per-waveform shaping of generate_tone, applied to the phase in
cycles.  Only the sine branch leaves the rationals. -/
noncomputable def shape : Waveform → ℚ → ℝ
  | .sine, c => Real.sin (2 * Real.pi * (c : ℝ))
  | .lilly, c => ((squareWave (1/4) c : ℚ) : ℝ)
  | .square, c => ((squareWave (1/2) c : ℚ) : ℝ)
  | .pulse, c => (((squareWave (1/20) c + 1) / 2 : ℚ) : ℝ)
  | .sawtooth, c => ((sawtoothWave 1 c : ℚ) : ℝ)
  | .reverse_sawtooth, c => ((sawtoothWave 0 c : ℚ) : ℝ)
  | .triangle, c => ((sawtoothWave (1/2) c : ℚ) : ℝ)

/-- The ValueError raised by np.linspace on a negative sample count. -/
def linspaceError : String := "ValueError: number of samples must be non-negative"

/-- Embedding of generate_tone (src/app.py lines 78-108): build the time
axis with linspace, compute the instantaneous phase, shape it with the
selected waveform and scale by the amplitude.  A negative sample count
makes np.linspace raise; a zero count yields an empty buffer. -/
noncomputable def generate_tone (start_freq end_freq duration sample_rate : ℚ)
    (waveform : Waveform) (amplitude : ℚ) : Except String (List ℝ) :=
  if numSamples duration sample_rate < 0 then Except.error linspaceError
  else Except.ok
    (((linspace duration (numSamples duration sample_rate).toNat).map
      (fun t => (amplitude : ℝ) *
        shape waveform (instPhaseCycles start_freq end_freq duration t))))

/-! ## Quantization to int16 (src/app.py lines 154 and 159-160)

The source multiplies by 32767 and calls astype(np.int16): C-style
conversion, truncating toward zero and wrapping modulo 2^16.  There is
no rounding, no clamping and no finiteness check. -/

/-- Truncation toward zero of a real, as performed by a float-to-integer
C cast. -/
noncomputable def truncTowardZero (x : ℝ) : ℤ :=
  if 0 ≤ x then ⌊x⌋ else ⌈x⌉

/-- Reduction of an integer into the int16 range by wrapping modulo
2^16. -/
def wrap16 (n : ℤ) : ℤ :=
  (n + 32768) % 65536 - 32768

/-- Model of ndarray.astype(np.int16) on one sample. -/
noncomputable def astype_int16 (x : ℝ) : ℤ :=
  wrap16 (truncTowardZero x)

/-- The per-sample map the source applies to a float buffer before
output: scale by 32767 and cast to int16. -/
noncomputable def quantizeSample (s : ℝ) : ℤ :=
  astype_int16 (s * 32767)

/-- Written from the specification words for comparison with
quantizeSample: round(s * (2^15 - 1)) clamped to the representable
signed 16-bit range. -/
noncomputable def specQuantizeSample (s : ℝ) : ℤ :=
  max (-32768) (min 32767 (round (s * 32767)))

/-! ## Mixing (merge_audio, src/app.py lines 110-122) -/

/-- Model of np.sum(audio_list, axis=0) for a non-empty list of
equal-length arrays: the element-wise sum. -/
def sumZip (b : List ℝ) (rest : List (List ℝ)) : List ℝ :=
  rest.foldl (fun acc l => List.zipWith (fun x y => x + y) acc l) b

/-- Model of np.max(np.abs(l)): the largest absolute value.  np.max
raises on an empty array; this model returns 0 there, and the theorems
about merge_audio keep to non-empty buffers. -/
noncomputable def peakAbs (l : List ℝ) : ℝ :=
  (l.map (fun x => |x|)).foldl max 0

/-- Embedding of merge_audio (src/app.py lines 110-122): an empty input
returns None, otherwise the element-wise sum is divided by its peak
absolute value when that peak is positive. -/
noncomputable def merge_audio (audio_list : List (List ℝ)) : Option (List ℝ) :=
  match audio_list with
  | [] => none
  | b :: rest =>
    let mixed := sumZip b rest
    if 0 < peakAbs mixed then some (mixed.map (fun x => x / peakAbs mixed))
    else some mixed

/-! ## The generate_audio pipeline (src/app.py lines 126-161) -/

/-- The IndexError raised by fixed_segments[0] on an empty list. -/
def indexError : String := "IndexError: list index out of range"

/-- The TypeError raised by multiplying None by 32767. -/
def typeError : String := "TypeError: unsupported operand type for NoneType"

/-- The ValueError raised by np.concatenate on an empty list. -/
def concatError : String := "ValueError: need at least one array to concatenate"

/-- Model of np.concatenate on a list of int arrays. -/
def npConcat (ls : List (List ℤ)) : Except String (List ℤ) :=
  if ls.isEmpty then Except.error concatError else Except.ok ls.flatten

/-- Model of np.concatenate on a list of float arrays (used only by the
specification-order pipeline of claim C10). -/
def npConcatF (ls : List (List ℝ)) : Except String (List ℝ) :=
  if ls.isEmpty then Except.error concatError else Except.ok ls.flatten

/-- The per-segment generate_tone loop shared by the two branches of
generate_audio: the merge branch passes every segment the first
segment's duration, the sequential branch each segment's own. -/
noncomputable def tonesWith (sample_rate : ℚ) (waveform : Waveform)
    (durOf : Segment → ℚ) : List Segment → Except String (List (List ℝ))
  | [] => Except.ok []
  | seg :: rest =>
    match generate_tone seg.startFreq seg.endFreq (durOf seg) sample_rate
        waveform 1 with
    | Except.error e => Except.error e
    | Except.ok tone =>
      match tonesWith sample_rate waveform durOf rest with
      | Except.error e => Except.error e
      | Except.ok tail => Except.ok (tone :: tail)

/-- The sequential (non-merge) branch of generate_audio: each tone is
scaled by 32767 and cast to int16 individually, then all int buffers
are concatenated. -/
noncomputable def sequentialAudio (segs : List Segment) (sample_rate : ℚ)
    (waveform : Waveform) : Except String (List ℤ) :=
  match tonesWith sample_rate waveform (fun s => s.duration) segs with
  | Except.error e => Except.error e
  | Except.ok tones =>
    npConcat (tones.map (fun tone => tone.map (fun x => astype_int16 (x * 32767))))

/-- Order of operations the specification prescribes for the sequential
mode, written for comparison with sequentialAudio in claim C10: first
concatenate the float tone buffers, then quantize the whole buffer
once. -/
noncomputable def specSequentialAudio (segs : List Segment) (sample_rate : ℚ)
    (waveform : Waveform) : Except String (List ℤ) :=
  match tonesWith sample_rate waveform (fun s => s.duration) segs with
  | Except.error e => Except.error e
  | Except.ok tones =>
    match npConcatF tones with
    | Except.error e => Except.error e
    | Except.ok allFloats =>
      Except.ok (allFloats.map (fun x => astype_int16 (x * 32767)))

/-- Embedding of generate_audio (src/app.py lines 126-161), up to the
final WAV write which is external to the core.  The merge branch reads
the first segment's duration before anything else, so an empty segment
list raises IndexError there; the sequential branch reaches
np.concatenate with an empty list instead. -/
noncomputable def generate_audio (frequencies : List Char) (waveform : Waveform)
    (sample_rate : ℚ) (dwell : ℚ) (merge_frequencies : Bool) :
    Except String (List ℤ) :=
  match parse_frequency_set frequencies dwell with
  | Except.error e => Except.error e
  | Except.ok segments =>
    let fixed_segments := segments.map (fun s =>
      Segment.mk (fix_frequency s.startFreq waveform sample_rate)
        (fix_frequency s.endFreq waveform sample_rate) s.duration)
    if merge_frequencies then
      match fixed_segments with
      | [] => Except.error indexError
      | first :: _ =>
        match tonesWith sample_rate waveform (fun _ => first.duration)
            fixed_segments with
        | Except.error e => Except.error e
        | Except.ok tones =>
          match merge_audio tones with
          | none => Except.error typeError
          | some merged =>
            Except.ok (merged.map (fun x => astype_int16 (x * 32767)))
    else sequentialAudio fixed_segments sample_rate waveform

/-! ## Properties of the frequency limiter -/

theorem nyquistFraction_pos (w : Waveform) : 0 < nyquistFraction w := by
  cases w <;> norm_num [nyquistFraction]

/-- Full characterisation of the halving loop: it returns freq divided
by the least power of two that brings it at or below maxF. -/
theorem fixLoop_spec_aux (maxF : ℚ) (hpos : 0 < maxF) :
    ∀ n : ℕ, ∀ freq : ℚ, ⌈freq / maxF⌉₊ ≤ n →
    ∃ k : ℕ, fixLoop maxF hpos freq = freq / 2 ^ k ∧ freq / 2 ^ k ≤ maxF ∧
      ∀ j : ℕ, j < k → maxF < freq / 2 ^ j := by
  intro n
  induction n with
  | zero =>
    intro freq hle
    have hnotlt : ¬ maxF < freq := by
      intro h
      have h1 : (1 : ℚ) < freq / maxF := (one_lt_div hpos).mpr h
      have h2 : (1 : ℕ) < ⌈freq / maxF⌉₊ := Nat.lt_ceil.mpr (by exact_mod_cast h1)
      omega
    refine ⟨0, ?_, ?_, ?_⟩
    · rw [fixLoop, dif_neg hnotlt]; norm_num
    · simpa using not_lt.mp hnotlt
    · intro j hj; exact absurd hj (Nat.not_lt_zero j)
  | succ n ih =>
    intro freq hle
    by_cases h : maxF < freq
    · have hm : ⌈freq / 2 / maxF⌉₊ ≤ n := by
        have := ceil_half_div_lt maxF freq hpos h; omega
      obtain ⟨k, e1, e2, e3⟩ := ih (freq / 2) hm
      have epow : ∀ j : ℕ, freq / 2 / 2 ^ j = freq / 2 ^ (j + 1) := by
        intro j; rw [div_div, pow_succ]; ring_nf
      refine ⟨k + 1, ?_, ?_, ?_⟩
      · rw [fixLoop, dif_pos h, e1, epow]
      · rw [← epow]; exact e2
      · intro j hj
        match j with
        | 0 => simpa using h
        | j' + 1 =>
          rw [← epow]
          exact e3 j' (by omega)
    · refine ⟨0, ?_, ?_, ?_⟩
      · rw [fixLoop, dif_neg h]; norm_num
      · simpa using not_lt.mp h
      · intro j hj; exact absurd hj (Nat.not_lt_zero j)

theorem fixLoop_spec (maxF : ℚ) (hpos : 0 < maxF) (freq : ℚ) :
    ∃ k : ℕ, fixLoop maxF hpos freq = freq / 2 ^ k ∧ freq / 2 ^ k ≤ maxF ∧
      ∀ j : ℕ, j < k → maxF < freq / 2 ^ j :=
  fixLoop_spec_aux maxF hpos ⌈freq / maxF⌉₊ freq le_rfl

/-- The halving loop never returns a value above the limit. -/
theorem fixLoop_le (maxF : ℚ) (hpos : 0 < maxF) (freq : ℚ) :
    fixLoop maxF hpos freq ≤ maxF := by
  obtain ⟨k, e1, e2, _⟩ := fixLoop_spec maxF hpos freq
  rw [e1]; exact e2

/-- A frequency already at or below the limit is left unchanged. -/
theorem fixLoop_of_le (maxF : ℚ) (hpos : 0 < maxF) (freq : ℚ)
    (h : freq ≤ maxF) : fixLoop maxF hpos freq = freq := by
  rw [fixLoop, dif_neg (not_lt.mpr h)]

/-- C2: fix_frequency never fails for a positive finite frequency,
positive sample rate and any waveform of the closed enumeration; it
returns f / 2^k for the least k with f / 2^k at or below the product of
the sample rate and the waveform fraction (1/20 for sine and lilly, 1/8
for triangle, 1/4 for pulse, sawtooth and reverse_sawtooth, 1/2 for
square), and in particular the result never exceeds that product. -/
theorem C2_fix_frequency_least_halving (f r : ℚ) (w : Waveform)
    (_hf : 0 < f) (hr : 0 < r) :
    (nyquistFraction .sine = 1/20 ∧ nyquistFraction .lilly = 1/20 ∧
      nyquistFraction .triangle = 1/8 ∧ nyquistFraction .pulse = 1/4 ∧
      nyquistFraction .sawtooth = 1/4 ∧
      nyquistFraction .reverse_sawtooth = 1/4 ∧
      nyquistFraction .square = 1/2) ∧
    fix_frequency f w r ≤ r * nyquistFraction w ∧
    ∃ k : ℕ, fix_frequency f w r = f / 2 ^ k ∧
      f / 2 ^ k ≤ r * nyquistFraction w ∧
      ∀ j : ℕ, j < k → r * nyquistFraction w < f / 2 ^ j := by
  have hpos : 0 < r * nyquistFraction w := mul_pos hr (nyquistFraction_pos w)
  rw [fix_frequency, dif_pos hpos]
  exact ⟨by norm_num [nyquistFraction], fixLoop_le _ hpos f, fixLoop_spec _ hpos f⟩

/-- Witness for C2 at f = 100, w = sine, r = 10: the limit is 1/2 and
the loop halves 100 eight times down to 25/64. -/
theorem C2_witness :
    (nyquistFraction .sine = 1/20 ∧ nyquistFraction .lilly = 1/20 ∧
      nyquistFraction .triangle = 1/8 ∧ nyquistFraction .pulse = 1/4 ∧
      nyquistFraction .sawtooth = 1/4 ∧
      nyquistFraction .reverse_sawtooth = 1/4 ∧
      nyquistFraction .square = 1/2) ∧
    fix_frequency 100 Waveform.sine 10 ≤ 10 * nyquistFraction Waveform.sine ∧
    ∃ k : ℕ, fix_frequency 100 Waveform.sine 10 = 100 / 2 ^ k ∧
      (100 : ℚ) / 2 ^ k ≤ 10 * nyquistFraction Waveform.sine ∧
      ∀ j : ℕ, j < k → 10 * nyquistFraction Waveform.sine < 100 / 2 ^ j :=
  C2_fix_frequency_least_halving 100 10 Waveform.sine (by norm_num) (by norm_num)

/-- C8: limiting is idempotent, a frequency at or below the limit is a
fixed point, and in particular any f at or below 2400 is a fixed point
for sine at 48000 Hz. -/
theorem C8_fix_frequency_idempotent (f r : ℚ) (w : Waveform)
    (_hf : 0 < f) (hr : 0 < r) :
    fix_frequency (fix_frequency f w r) w r = fix_frequency f w r ∧
    (f ≤ r * nyquistFraction w → fix_frequency f w r = f) ∧
    (f ≤ 2400 → fix_frequency f Waveform.sine 48000 = f) := by
  have hpos : 0 < r * nyquistFraction w := mul_pos hr (nyquistFraction_pos w)
  refine ⟨?_, ?_, ?_⟩
  · simp only [fix_frequency, dif_pos hpos]
    exact fixLoop_of_le _ hpos _ (fixLoop_le _ hpos f)
  · intro hle
    rw [fix_frequency, dif_pos hpos]
    exact fixLoop_of_le _ hpos _ hle
  · intro hle
    have hp : (0 : ℚ) < 48000 * nyquistFraction Waveform.sine := by
      norm_num [nyquistFraction]
    rw [fix_frequency, dif_pos hp]
    refine fixLoop_of_le _ hp _ ?_
    calc f ≤ 2400 := hle
      _ = 48000 * nyquistFraction Waveform.sine := by norm_num [nyquistFraction]

/-- Witness for C8 at f = 5000, w = sine, r = 48000. -/
theorem C8_witness :
    fix_frequency (fix_frequency 5000 Waveform.sine 48000) Waveform.sine 48000
        = fix_frequency 5000 Waveform.sine 48000 ∧
    ((5000 : ℚ) ≤ 48000 * nyquistFraction Waveform.sine →
      fix_frequency 5000 Waveform.sine 48000 = 5000) ∧
    ((5000 : ℚ) ≤ 2400 → fix_frequency 5000 Waveform.sine 48000 = 5000) :=
  C8_fix_frequency_idempotent 5000 48000 Waveform.sine (by norm_num) (by norm_num)

/-! ## Properties of the parser -/

deriving instance DecidableEq for Except

/-- Each non-empty stripped token contributes exactly one segment. -/
theorem parseTokens_length (dwell : ℚ) :
    ∀ (ts : List (List Char)) (L : List Segment),
      parseTokens dwell ts = Except.ok L →
      L.length = (ts.filter (fun t => !t.isEmpty)).length := by
  intro ts
  induction ts with
  | nil =>
    intro L h
    simp only [parseTokens] at h
    cases h
    simp
  | cons p rest ih =>
    intro L h
    by_cases hp : p.isEmpty = true
    · rw [parseTokens, if_pos hp] at h
      simp [List.filter_cons, hp, ih L h]
    · rw [parseTokens, if_neg hp] at h
      cases hpt : parseToken p dwell with
      | error e => rw [hpt] at h; cases h
      | ok seg =>
        rw [hpt] at h
        cases hrest : parseTokens dwell rest with
        | error e => rw [hrest] at h; cases h
        | ok tail =>
          rw [hrest] at h
          cases h
          simp [List.filter_cons, hp, ih tail hrest]

/-- C3: the four grammar shapes parse to the stated segments, and for
every specification string accepted by the parser the number of
segments equals the number of comma-separated tokens that are non-empty
after stripping. -/
theorem C3_parse_examples_and_count :
    (parse_frequency_set "144".toList 180 = Except.ok [⟨144, 144, 180⟩] ∧
     parse_frequency_set "144=360".toList 10 = Except.ok [⟨144, 144, 360⟩] ∧
     parse_frequency_set "160-180".toList 10 = Except.ok [⟨160, 180, 10⟩] ∧
     parse_frequency_set "520-555=60".toList 10 = Except.ok [⟨520, 555, 60⟩]) ∧
    ∀ (s : List Char) (d : ℚ) (L : List Segment),
      parse_frequency_set s d = Except.ok L →
      L.length = nonEmptyTokenCount s := by
  constructor
  · exact ⟨by decide, by decide, by decide, by decide⟩
  · intro s d L h
    exact parseTokens_length d _ L h

/-- Witness for the universally quantified part of C3 at the
specification string 5,,7 whose middle token is empty. -/
theorem C3_witness :
    ([⟨5, 5, 1⟩, ⟨7, 7, 1⟩] : List Segment).length =
      nonEmptyTokenCount "5,,7".toList :=
  C3_parse_examples_and_count.2 "5,,7".toList 1 [⟨5, 5, 1⟩, ⟨7, 7, 1⟩] (by decide)

/-! ## Properties of the mixer -/

theorem le_foldl_max (l : List ℝ) (a : ℝ) : a ≤ l.foldl max a := by
  induction l generalizing a with
  | nil => exact le_rfl
  | cons x xs ih => exact le_trans (le_max_left a x) (ih (max a x))

theorem mem_le_foldl_max (l : List ℝ) (a x : ℝ) (hx : x ∈ l) :
    x ≤ l.foldl max a := by
  induction l generalizing a with
  | nil => cases hx
  | cons y ys ih =>
    rcases List.mem_cons.mp hx with h | h
    · subst h
      exact le_trans (le_max_right a x) (le_foldl_max ys (max a x))
    · exact ih (max a y) h

theorem foldl_max_cases (l : List ℝ) (a : ℝ) :
    l.foldl max a = a ∨ ∃ x ∈ l, l.foldl max a = x := by
  induction l generalizing a with
  | nil => exact Or.inl rfl
  | cons y ys ih =>
    rcases ih (max a y) with h | ⟨x, hx, he⟩
    · rcases max_choice a y with hm | hm
      · exact Or.inl (by rw [List.foldl_cons, h, hm])
      · exact Or.inr ⟨y, List.mem_cons_self y ys, by rw [List.foldl_cons, h, hm]⟩
    · exact Or.inr ⟨x, List.mem_cons_of_mem y hx, he⟩

theorem foldl_max_div (l : List ℝ) (a m : ℝ) (hm : 0 < m) :
    (l.map (fun x => x / m)).foldl max (a / m) = l.foldl max a / m := by
  induction l generalizing a with
  | nil => rfl
  | cons y ys ih =>
    simp only [List.map_cons, List.foldl_cons]
    rw [max_div_div_right hm.le a y, ih (max a y)]

theorem peakAbs_nonneg (l : List ℝ) : 0 ≤ peakAbs l :=
  le_foldl_max _ 0

theorem abs_le_peakAbs (l : List ℝ) (x : ℝ) (hx : x ∈ l) : |x| ≤ peakAbs l :=
  mem_le_foldl_max _ 0 _ (List.mem_map_of_mem (fun y => |y|) hx)

theorem peakAbs_eq_zero_all_zero (l : List ℝ) (h : peakAbs l = 0) :
    ∀ x ∈ l, x = 0 := by
  intro x hx
  have h1 : |x| ≤ 0 := h ▸ abs_le_peakAbs l x hx
  exact abs_nonpos_iff.mp h1

/-- Dividing every sample by a positive constant divides the peak. -/
theorem peakAbs_map_div (l : List ℝ) (m : ℝ) (hm : 0 < m) :
    peakAbs (l.map (fun x => x / m)) = peakAbs l / m := by
  unfold peakAbs
  have hmap : (l.map (fun x => x / m)).map (fun x => |x|) =
      (l.map (fun x => |x|)).map (fun x => x / m) := by
    simp only [List.map_map]
    refine List.map_congr_left ?_
    intro x _
    simp [abs_div, abs_of_pos hm]
  rw [hmap]
  have h0 : (0 : ℝ) = 0 / m := by rw [zero_div]
  rw [h0, foldl_max_div _ 0 m hm, zero_div]

/-- C4: on a non-empty family of equal-length non-empty buffers,
merge_audio sums element-wise and divides by the peak absolute value of
the sum; the peak of the result is exactly 1 when the input peak is
non-zero, and a zero peak means the summed buffer is all zero and is
returned unchanged. -/
theorem C4_merge_audio_normalizes (b : List ℝ) (rest : List (List ℝ))
    (_hlen : ∀ l ∈ rest, l.length = b.length) (_hb : b ≠ []) :
    (merge_audio (b :: rest) =
      some (if 0 < peakAbs (sumZip b rest)
        then (sumZip b rest).map (fun x => x / peakAbs (sumZip b rest))
        else sumZip b rest)) ∧
    (peakAbs (sumZip b rest) ≠ 0 →
      peakAbs ((sumZip b rest).map
        (fun x => x / peakAbs (sumZip b rest))) = 1) ∧
    (peakAbs (sumZip b rest) = 0 →
      merge_audio (b :: rest) = some (sumZip b rest) ∧
      ∀ x ∈ sumZip b rest, x = 0) := by
  refine ⟨?_, ?_, ?_⟩
  · by_cases h : 0 < peakAbs (sumZip b rest) <;>
      simp [merge_audio, h]
  · intro hne
    have hpos : 0 < peakAbs (sumZip b rest) :=
      lt_of_le_of_ne (peakAbs_nonneg _) (Ne.symm hne)
    rw [peakAbs_map_div _ _ hpos, div_self hne]
  · intro hz
    have hnotpos : ¬ 0 < peakAbs (sumZip b rest) := by rw [hz]; exact lt_irrefl 0
    exact ⟨by simp [merge_audio, hnotpos], peakAbs_eq_zero_all_zero _ hz⟩

/-- Witness for C4 on the two one-sample buffers [1/2] and [1/2]: the
sum is [1], the peak is 1 and the normalized peak is 1. -/
theorem C4_witness :
    (merge_audio ([(1 : ℝ)/2] :: [[(1 : ℝ)/2]]) =
      some (if 0 < peakAbs (sumZip [(1 : ℝ)/2] [[(1 : ℝ)/2]])
        then (sumZip [(1 : ℝ)/2] [[(1 : ℝ)/2]]).map
          (fun x => x / peakAbs (sumZip [(1 : ℝ)/2] [[(1 : ℝ)/2]]))
        else sumZip [(1 : ℝ)/2] [[(1 : ℝ)/2]])) ∧
    (peakAbs (sumZip [(1 : ℝ)/2] [[(1 : ℝ)/2]]) ≠ 0 →
      peakAbs ((sumZip [(1 : ℝ)/2] [[(1 : ℝ)/2]]).map
        (fun x => x / peakAbs (sumZip [(1 : ℝ)/2] [[(1 : ℝ)/2]]))) = 1) ∧
    (peakAbs (sumZip [(1 : ℝ)/2] [[(1 : ℝ)/2]]) = 0 →
      merge_audio ([(1 : ℝ)/2] :: [[(1 : ℝ)/2]]) =
        some (sumZip [(1 : ℝ)/2] [[(1 : ℝ)/2]]) ∧
      ∀ x ∈ sumZip [(1 : ℝ)/2] [[(1 : ℝ)/2]], x = 0) :=
  C4_merge_audio_normalizes [(1 : ℝ)/2] [[(1 : ℝ)/2]]
    (by intro l hl; simp at hl; simp [hl]) (by simp)

/-! ## Properties of the int16 quantization -/

/-- Wrapping is the identity on the int16 range. -/
theorem wrap16_eq_self (n : ℤ) (h1 : -32768 ≤ n) (h2 : n ≤ 32767) :
    wrap16 n = n := by
  unfold wrap16; omega

/-- Truncation toward zero keeps a real of magnitude at most 32767
inside the int16 range. -/
theorem truncTowardZero_bounds (x : ℝ) (h1 : -32767 ≤ x) (h2 : x ≤ 32767) :
    -32767 ≤ truncTowardZero x ∧ truncTowardZero x ≤ 32767 := by
  unfold truncTowardZero
  by_cases h : 0 ≤ x
  · rw [if_pos h]
    constructor
    · have := Int.floor_nonneg.mpr h; omega
    · have hle : ((⌊x⌋ : ℝ)) ≤ 32767 := le_trans (Int.floor_le x) h2
      exact_mod_cast hle
  · rw [if_neg h]
    constructor
    · have hle : (-32767 : ℝ) ≤ (⌈x⌉ : ℝ) := le_trans h1 (Int.le_ceil x)
      exact_mod_cast hle
    · have hc : ⌈x⌉ ≤ (0 : ℤ) := Int.ceil_le.mpr (by push_cast; linarith)
      omega

/-- Nonnegative reals truncate to nonnegative integers. -/
theorem truncTowardZero_nonneg (x : ℝ) (h : 0 ≤ x) : 0 ≤ truncTowardZero x := by
  unfold truncTowardZero
  rw [if_pos h]
  exact Int.floor_nonneg.mpr h

/-- Amended C5: the source quantization multiplies by 32767 and casts
with astype(np.int16), i.e. truncates toward zero (no rounding) and
wraps modulo 2^16 (no clamping); on samples inside [-1, 1] the wrap is
the identity and the result lies in [-32767, 32767].  The source
performs no finiteness check, so no error is ever raised. -/
theorem C5_quantize_truncates (s : ℝ) (h1 : -1 ≤ s) (h2 : s ≤ 1) :
    quantizeSample s = truncTowardZero (s * 32767) ∧
    -32767 ≤ quantizeSample s ∧ quantizeSample s ≤ 32767 := by
  have hb1 : -32767 ≤ s * 32767 := by nlinarith
  have hb2 : s * 32767 ≤ 32767 := by nlinarith
  obtain ⟨t1, t2⟩ := truncTowardZero_bounds (s * 32767) hb1 hb2
  have heq : quantizeSample s = truncTowardZero (s * 32767) := by
    unfold quantizeSample astype_int16
    exact wrap16_eq_self _ (by omega) t2
  exact ⟨heq, heq ▸ t1, heq ▸ t2⟩

/-- Witness for the amended C5 at s = 1/2. -/
theorem C5_witness :
    quantizeSample ((1 : ℝ)/2) = truncTowardZero ((1 : ℝ)/2 * 32767) ∧
    -32767 ≤ quantizeSample ((1 : ℝ)/2) ∧ quantizeSample ((1 : ℝ)/2) ≤ 32767 :=
  C5_quantize_truncates ((1 : ℝ)/2) (by norm_num) (by norm_num)

/-- Counterexample to C5 as stated: at the finite sample 0.9999 the
source computes trunc(0.9999 * 32767) = 32763, while the claimed map
round(s * 32767) clamped gives 32764.  (The claimed NonFiniteSampleError
does not exist in the source either: astype casts unconditionally.) -/
theorem C5_counterexample :
    quantizeSample ((9999 : ℝ) / 10000) = 32763 ∧
    specQuantizeSample ((9999 : ℝ) / 10000) = 32764 ∧
    (32763 : ℤ) ≠ 32764 := by
  have hx : (9999 : ℝ) / 10000 * 32767 = 327637233 / 10000 := by norm_num
  refine ⟨?_, ?_, by decide⟩
  · unfold quantizeSample astype_int16 truncTowardZero
    rw [hx, if_pos (by norm_num)]
    have hf : ⌊(327637233 : ℝ) / 10000⌋ = 32763 := by
      rw [Int.floor_eq_iff]; norm_num
    rw [hf]; decide
  · unfold specQuantizeSample
    rw [hx]
    have hr : round ((327637233 : ℝ) / 10000) = 32764 := by
      rw [round_eq, Int.floor_eq_iff]; norm_num
    rw [hr]; decide

/-! ## Behaviour of generate_tone on degenerate durations -/

/-- Amended C6: generate_tone fails (np.linspace raises ValueError)
exactly when the computed sample count int(duration * sample_rate) is
negative; a zero sample count does not fail but yields an empty tone
buffer. -/
theorem C6_generate_tone_zero_count (s e d r amp : ℚ) (w : Waveform) :
    ((∃ msg, generate_tone s e d r w amp = Except.error msg) ↔
      numSamples d r < 0) ∧
    (numSamples d r = 0 → generate_tone s e d r w amp = Except.ok []) := by
  constructor
  · constructor
    · rintro ⟨msg, hmsg⟩
      by_contra hneg
      rw [generate_tone, if_neg hneg] at hmsg
      cases hmsg
    · intro h
      exact ⟨linspaceError, by rw [generate_tone, if_pos h]⟩
  · intro h
    rw [generate_tone, if_neg (by omega)]
    simp [h, linspace]

/-- Witness for the amended C6: duration 1/2 at sample rate 1 gives a
zero sample count and an empty buffer. -/
theorem C6_witness :
    generate_tone 1 1 (1/2) 1 Waveform.square 1 = Except.ok [] :=
  (C6_generate_tone_zero_count 1 1 (1/2) 1 1 Waveform.square).2
    (by norm_num [numSamples, ratTrunc])

/-- Counterexample to C6 as stated: a zero duration makes the sample
count floor(duration * sample_rate) zero, yet generate_tone returns an
empty buffer instead of failing with InvalidDurationError. -/
theorem C6_counterexample :
    numSamples 0 48000 = 0 ∧
    generate_tone 144 144 0 48000 Waveform.sine 1 = Except.ok [] := by
  have h0 : numSamples 0 48000 = 0 := by norm_num [numSamples, ratTrunc]
  refine ⟨h0, ?_⟩
  rw [generate_tone, if_neg (by rw [h0]; omega)]
  simp [h0, linspace]

/-! ## Behaviour of the pipeline on empty input -/

/-- Amended C7: when the specification string parses to zero segments,
generate_audio aborts, but not with a dedicated EmptyInputError: the
simultaneous branch hits IndexError reading the first segment's dwell
and the sequential branch hits the ValueError of np.concatenate on an
empty list. -/
theorem C7_empty_segments_abort (s : List Char) (w : Waveform) (r dw : ℚ)
    (h : parse_frequency_set s dw = Except.ok []) :
    generate_audio s w r dw true = Except.error indexError ∧
    generate_audio s w r dw false = Except.error concatError := by
  constructor
  · rw [generate_audio, h]
    rfl
  · rw [generate_audio, h]
    rfl

/-- Witness for the amended C7 at the empty specification string. -/
theorem C7_witness :
    generate_audio "".toList Waveform.sine 48000 180 true =
      Except.error indexError ∧
    generate_audio "".toList Waveform.sine 48000 180 false =
      Except.error concatError :=
  C7_empty_segments_abort "".toList Waveform.sine 48000 180 rfl

/-- Counterexample to C7 as stated: far from failing with
EmptyInputError, merge_audio on an empty buffer list explicitly returns
None (src/app.py lines 115-116). -/
theorem C7_counterexample : merge_audio [] = none := rfl

/-! ## Order of quantization and concatenation in Sequential mode -/

/-- C10: quantizing each tone buffer to int16 and then concatenating
(the source's sequential branch) produces exactly the same integer
buffer as concatenating the float tone buffers first and quantizing the
concatenation once (the order the specification prescribes), because
the per-sample quantization map commutes with concatenation; both
orders also fail identically on an empty segment list or a failing
tone. -/
theorem C10_sequential_quantize_commutes (segs : List Segment)
    (sample_rate : ℚ) (w : Waveform) :
    sequentialAudio segs sample_rate w = specSequentialAudio segs sample_rate w := by
  rw [sequentialAudio, specSequentialAudio]
  cases htones : tonesWith sample_rate w (fun s => s.duration) segs with
  | error e => rfl
  | ok tones =>
    cases tones with
    | nil => rfl
    | cons t ts =>
      simp [npConcat, npConcatF, List.map_flatten]

/-! ## The pulse waveform is the non-negative one -/

theorem squareWave_cases (duty c : ℚ) :
    squareWave duty c = 1 ∨ squareWave duty c = -1 := by
  unfold squareWave
  split
  · exact Or.inl rfl
  · exact Or.inr rfl

/-- The pulse shaping (square + 1) / 2 lies in [0, 1]. -/
theorem pulse_shape_bounds (c : ℚ) :
    0 ≤ shape Waveform.pulse c ∧ shape Waveform.pulse c ≤ 1 := by
  rcases squareWave_cases (1/20) c with h | h <;>
    · simp only [shape, h]
      norm_num

/-- A sample in [0, 1] quantizes to a non-negative int16 value. -/
theorem quantizeSample_nonneg_of_unit (x : ℝ) (h0 : 0 ≤ x) (h1 : x ≤ 1) :
    0 ≤ quantizeSample x := by
  have hb1 : -32767 ≤ x * 32767 := by nlinarith
  have hb2 : x * 32767 ≤ 32767 := by nlinarith
  have ht := truncTowardZero_bounds _ hb1 hb2
  have htn : 0 ≤ truncTowardZero (x * 32767) := truncTowardZero_nonneg _ (by positivity)
  unfold quantizeSample astype_int16
  rw [wrap16_eq_self _ (by omega) ht.2]
  exact htn

/-- Every waveform other than pulse can output a negative sample. -/
theorem shape_neg_other (w : Waveform) (hw : w ≠ Waveform.pulse) :
    ∃ c : ℚ, shape w c < 0 := by
  cases w with
  | pulse => exact absurd rfl hw
  | sine =>
    refine ⟨-(1/4), ?_⟩
    have hc : (((-(1/4) : ℚ)) : ℝ) = -(1/4 : ℝ) := by push_cast; ring
    simp only [shape, hc]
    have harg : 2 * Real.pi * -(1/4 : ℝ) = -(Real.pi / 2) := by ring
    rw [harg, Real.sin_neg, Real.sin_pi_div_two]
    norm_num
  | lilly =>
    refine ⟨1/2, ?_⟩
    have hf : Int.fract ((1 : ℚ)/2) = 1/2 := Int.fract_eq_self.mpr (by norm_num)
    simp only [shape, squareWave, hf]
    rw [if_neg (by norm_num)]
    norm_num
  | square =>
    refine ⟨3/4, ?_⟩
    have hf : Int.fract ((3 : ℚ)/4) = 3/4 := Int.fract_eq_self.mpr (by norm_num)
    simp only [shape, squareWave, hf]
    rw [if_neg (by norm_num)]
    norm_num
  | sawtooth =>
    refine ⟨0, ?_⟩
    simp only [shape, sawtoothWave, Int.fract_zero]
    rw [if_pos (by norm_num)]
    norm_num
  | reverse_sawtooth =>
    refine ⟨3/4, ?_⟩
    have hf : Int.fract ((3 : ℚ)/4) = 3/4 := Int.fract_eq_self.mpr (by norm_num)
    simp only [shape, sawtoothWave, hf]
    rw [if_neg (by norm_num)]
    norm_num
  | triangle =>
    refine ⟨0, ?_⟩
    simp only [shape, sawtoothWave, Int.fract_zero]
    rw [if_pos (by norm_num)]
    norm_num

/-- C9: with the pulse waveform and a non-negative amplitude (at most 1,
as in the pipeline, where the quantization always runs at amplitude 1)
every synthesized sample lies in [0, amplitude] and quantizes to a
non-negative integer; pulse is the only waveform whose shaping is
non-negative. -/
theorem C9_pulse_samples_nonneg (s e d r amp : ℚ) (buf : List ℝ)
    (hamp0 : 0 ≤ amp) (hamp1 : amp ≤ 1)
    (h : generate_tone s e d r Waveform.pulse amp = Except.ok buf) :
    (∀ x ∈ buf, 0 ≤ x ∧ x ≤ (amp : ℝ) ∧ 0 ≤ quantizeSample x) ∧
    (∀ w : Waveform, w ≠ Waveform.pulse → ∃ c : ℚ, shape w c < 0) := by
  have hbuf : buf = (linspace d (numSamples d r).toNat).map
      (fun t => (amp : ℝ) * shape Waveform.pulse (instPhaseCycles s e d t)) := by
    rw [generate_tone] at h
    by_cases hn : numSamples d r < 0
    · rw [if_pos hn] at h; cases h
    · rw [if_neg hn] at h; cases h; rfl
  constructor
  · intro x hx
    rw [hbuf] at hx
    obtain ⟨t, _, rfl⟩ := List.mem_map.mp hx
    obtain ⟨hp0, hp1⟩ := pulse_shape_bounds (instPhaseCycles s e d t)
    have hampR : (0 : ℝ) ≤ (amp : ℝ) := by exact_mod_cast hamp0
    have hampR1 : ((amp : ℝ)) ≤ 1 := by exact_mod_cast hamp1
    have hx0 : 0 ≤ (amp : ℝ) * shape Waveform.pulse (instPhaseCycles s e d t) :=
      mul_nonneg hampR hp0
    have hxa : (amp : ℝ) * shape Waveform.pulse (instPhaseCycles s e d t) ≤ amp := by
      calc (amp : ℝ) * shape Waveform.pulse (instPhaseCycles s e d t)
          ≤ (amp : ℝ) * 1 := mul_le_mul_of_nonneg_left hp1 hampR
        _ = (amp : ℝ) := mul_one _
    exact ⟨hx0, hxa, quantizeSample_nonneg_of_unit _ hx0 (le_trans hxa hampR1)⟩
  · exact shape_neg_other

/-- Witness for C9: a one-second pulse tone at 4 Hz sample rate and
amplitude 1. -/
theorem C9_witness :
    (∀ x ∈ (linspace 1 (numSamples 1 4).toNat).map
        (fun t => ((1 : ℚ) : ℝ) * shape Waveform.pulse (instPhaseCycles 1 1 1 t)),
      0 ≤ x ∧ x ≤ ((1 : ℚ) : ℝ) ∧ 0 ≤ quantizeSample x) ∧
    (∀ w : Waveform, w ≠ Waveform.pulse → ∃ c : ℚ, shape w c < 0) :=
  C9_pulse_samples_nonneg 1 1 1 4 1 _ (by norm_num) (by norm_num)
    (by rw [generate_tone, if_neg (by norm_num [numSamples, ratTrunc])])

/-! ## Sample-exact description of generate_tone -/

/-- Amended C1: the tone buffer has int(duration * sample_rate) =: N
samples (floor, for the positive durations of the data model), and the
sample at index i is amplitude times the waveform shaping applied to
the phase at t = i * duration / N — the time axis produced by
np.linspace — which equals i / sample_rate exactly when
duration * sample_rate is an integer; for a fixed tone the phase in
cycles degenerates to start_frequency * t. -/
theorem C1_tone_samples (s e d r amp : ℚ) (w : Waveform) (buf : List ℝ)
    (h : generate_tone s e d r w amp = Except.ok buf) :
    buf.length = (numSamples d r).toNat ∧
    (∀ i : ℕ, i < (numSamples d r).toNat →
      buf[i]? = some ((amp : ℝ) *
        shape w (instPhaseCycles s e d
          (d * (i : ℚ) / ((numSamples d r).toNat : ℚ))))) ∧
    (∀ (f dd t : ℚ), instPhaseCycles f f dd t = f * t) := by
  have hbuf : buf = (linspace d (numSamples d r).toNat).map
      (fun t => (amp : ℝ) * shape w (instPhaseCycles s e d t)) := by
    rw [generate_tone] at h
    by_cases hn : numSamples d r < 0
    · rw [if_pos hn] at h; cases h
    · rw [if_neg hn] at h; cases h; rfl
  refine ⟨?_, ?_, ?_⟩
  · rw [hbuf, linspace, List.length_map, List.length_map, List.length_range]
  · intro i hi
    rw [hbuf, linspace, List.getElem?_map, List.getElem?_map,
      List.getElem?_range hi]
    rfl
  · intro f dd t
    unfold instPhaseCycles
    ring

/-- Witness for the amended C1: a one-second square tone at 2 Hz sample
rate has numSamples = 2 samples. -/
theorem C1_witness :
    ((linspace 1 (numSamples 1 2).toNat).map
      (fun t => ((1 : ℚ) : ℝ) *
        shape Waveform.square (instPhaseCycles 1 1 1 t))).length
      = (numSamples 1 2).toNat :=
  (C1_tone_samples 1 1 1 2 1 Waveform.square _
    (by rw [generate_tone, if_neg (by norm_num [numSamples, ratTrunc])])).1

/-- Counterexample to C1 as stated: for the fixed 2 Hz square tone of
duration 3/2 s at sample rate 3, numSamples = int(4.5) = 4 and the
linspace step is 3/8, so at index 2 the code evaluates the waveform at
t = 3/4 (phase 3/2 cycles, sample -1), while the claimed time axis
t = i / sample_rate gives t = 2/3 (phase 4/3 cycles, sample +1). -/
theorem C1_counterexample :
    ((generate_tone 2 2 (3/2) 3 Waveform.square 1).toOption.bind
      (fun l => l[2]?)) = some (-1 : ℝ) ∧
    ((1 : ℚ) : ℝ) * shape Waveform.square (instPhaseCycles 2 2 (3/2) (2/3)) = 1 ∧
    ((-1 : ℝ)) ≠ 1 := by
  have hfract32 : Int.fract ((3 : ℚ)/2) = 1/2 := by
    have h32 : ((3 : ℚ)/2) = 1/2 + (1 : ℤ) := by norm_num
    rw [h32, Int.fract_add_int]
    exact Int.fract_eq_self.mpr (by norm_num)
  have hfract43 : Int.fract ((4 : ℚ)/3) = 1/3 := by
    have h43 : ((4 : ℚ)/3) = 1/3 + (1 : ℤ) := by norm_num
    rw [h43, Int.fract_add_int]
    exact Int.fract_eq_self.mpr (by norm_num)
  have hsq32 : shape Waveform.square ((3 : ℚ)/2) = -1 := by
    simp only [shape, squareWave, hfract32]
    rw [if_neg (by norm_num)]
    norm_num
  have hsq43 : shape Waveform.square ((4 : ℚ)/3) = 1 := by
    simp only [shape, squareWave, hfract43]
    rw [if_pos (by norm_num)]
    norm_num
  refine ⟨?_, ?_, by norm_num⟩
  · have hN : numSamples (3/2) 3 = 4 := by norm_num [numSamples, ratTrunc]
    have hgen : generate_tone 2 2 (3/2) 3 Waveform.square 1 =
        Except.ok ((linspace (3/2) 4).map
          (fun t => ((1 : ℚ) : ℝ) *
            shape Waveform.square (instPhaseCycles 2 2 (3/2) t))) := by
      rw [generate_tone, if_neg (by rw [hN]; omega), hN]
      rfl
    rw [hgen]
    show ((linspace (3/2) 4).map
      (fun t => ((1 : ℚ) : ℝ) *
        shape Waveform.square (instPhaseCycles 2 2 (3/2) t)))[2]? = some (-1 : ℝ)
    have hls : linspace (3/2) 4 = [0, 3/8, 3/4, 9/8] := by
      rw [linspace, show List.range 4 = [0, 1, 2, 3] from rfl]
      simp only [List.map]
      norm_num
    rw [hls]
    show some (((1 : ℚ) : ℝ) *
      shape Waveform.square (instPhaseCycles 2 2 (3/2) (3/4))) = some (-1 : ℝ)
    have harg : instPhaseCycles 2 2 (3/2) (3/4) = (3 : ℚ)/2 := by
      norm_num [instPhaseCycles]
    rw [harg, hsq32]
    norm_num
  · have harg : instPhaseCycles 2 2 (3/2) (2/3) = (4 : ℚ)/3 := by
      norm_num [instPhaseCycles]
    rw [harg, hsq43]
    norm_num
